import Mathlib

/-
Verification of the RSI backtest tool (src/main.py).

The algorithmic core of the repository is the strategy class RSIStrategy
(main.py lines 106-141): its per-bar method next() reads the last two RSI
values, computes a position size and two protective stop prices, and issues
close/buy/sell orders on upward or downward crossings of the configured
bounds.  Prices, equity and indicator values are embedded as rationals;
Python's int() is embedded as truncation toward zero; an undefined (NaN)
indicator value is embedded as `none`, and every comparison with it is
false, exactly as a Python comparison with NaN is.

The bar-by-bar execution engine (the external backtesting library) and the
RSI computation (the external pandas_ta library) are not part of src/; the
definitions below that stand in for them are modelled from the spec, and say
so in their doc comments.
-/

set_option autoImplicit false

namespace BacktestRSI

/-- Python int() applied to a real value truncates toward zero (main.py lines
137 and 141 pass int(position_size) as the order size). -/
def pyInt (q : ℚ) : ℤ := if 0 ≤ q then ⌊q⌋ else ⌈q⌉

/-- Configuration of a run: the RSIStrategy class attributes set in
run_backtest (main.py lines 82-85) plus the Backtest constructor arguments
(line 88: cash, commission) and the RSI period (line 69). -/
structure Config where
  lower_bound : ℚ
  upper_bound : ℚ
  risk : ℚ
  leverage : ℚ
  commission : ℚ
  period : ℕ
  capital : ℚ
deriving DecidableEq

/-- One OHLCV bar of the price series. -/
structure Bar where
  open_ : ℚ
  high : ℚ
  low : ℚ
  close : ℚ
  volume : ℚ
deriving DecidableEq

def barDefault : Bar := ⟨0, 0, 0, 0, 0⟩

/-- Comparison value > bound under NaN semantics: an undefined indicator
value (none, i.e. NaN in the source) compares false against everything. -/
def oGT : Option ℚ → ℚ → Bool
  | none, _ => false
  | some x, b => decide (b < x)

/-- Comparison value < bound under NaN semantics. -/
def oLT : Option ℚ → ℚ → Bool
  | none, _ => false
  | some x, b => decide (x < b)

/-- Upward crossing of the lower bound between the two samples:
rsi_t_minus_1 < lower_bound and rsi_t > lower_bound (main.py 131, 135). -/
def crossUp (cfg : Config) (vp vn : Option ℚ) : Bool :=
  oLT vp cfg.lower_bound && oGT vn cfg.lower_bound

/-- Downward crossing of the upper bound between the two samples:
rsi_t_minus_1 > upper_bound and rsi_t < upper_bound (main.py 128, 139). -/
def crossDown (cfg : Config) (vp vn : Option ℚ) : Bool :=
  oGT vp cfg.upper_bound && oLT vn cfg.upper_bound

/-- Orders a strategy step can issue: position.close(), self.buy, self.sell. -/
inductive Action
  | close
  | buy
  | sell
deriving DecidableEq

/-- The order decisions of RSIStrategy.next (main.py lines 127-141), as the
list of orders issued in source order, given the position flags is_long and
is_short at the start of the step (pending orders do not change them inside
one step) and the two indicator samples.  First the two independent closing
ifs (128-132), then the if/elif opening block (134-141). -/
def codeActions (cfg : Config) (iL iS : Bool) (vp vn : Option ℚ) : List Action :=
  ((if iL && crossDown cfg vp vn then [Action.close] else []) ++
   (if iS && crossUp cfg vp vn then [Action.close] else [])) ++
  (if crossUp cfg vp vn then (if !iL then [Action.buy] else [])
   else if crossDown cfg vp vn then (if !iS then [Action.sell] else [])
   else [])

/-- position_size (main.py 121-122): capital_with_leverage / close, before
the int() truncation applied at order placement. -/
def position_size (E L P : ℚ) : ℚ := E * L / P

/-- stop_loss_long (main.py 125): Close - (equity * (risk / 100)) / position_size. -/
def stop_loss_long (E R P L : ℚ) : ℚ := P - E * (R / 100) / position_size E L P

/-- stop_loss_short (main.py 126): (equity * (risk / 100)) / position_size + Close. -/
def stop_loss_short (E R P L : ℚ) : ℚ := E * (R / 100) / position_size E L P + P

/-- Direction of an open trade. -/
inductive Dir
  | long
  | short
deriving DecidableEq

/-- An open or completed trade: direction, executed (truncated) size, entry
price and the protective stop recorded at entry. -/
structure Trade where
  dir : Dir
  size : ℤ
  entry : ℚ
  stop : ℚ
deriving DecidableEq

/-- State of the engine: cash, the open trades, the log of completed trades
and the equity curve (one mark-to-market snapshot per simulated bar). -/
structure EngineState where
  cash : ℚ
  trades : List Trade
  closed : List Trade
  curve : List ℚ
deriving DecidableEq

def dirSign : Dir → ℚ
  | Dir.long => 1
  | Dir.short => -1

/-- Unrealized profit of a trade marked to a price. -/
def tradePnl (t : Trade) (price : ℚ) : ℚ := dirSign t.dir * (t.size : ℚ) * (price - t.entry)

/-- Equity = cash + unrealized profit of the open trades (spec §3). -/
def equity (st : EngineState) (price : ℚ) : ℚ :=
  st.cash + (st.trades.map fun t => tradePnl t price).sum

/-- self.position.is_long: a long trade is open. -/
def isLong (st : EngineState) : Bool := st.trades.any fun t => decide (t.dir = Dir.long)

/-- self.position.is_short: a short trade is open. -/
def isShort (st : EngineState) : Bool := st.trades.any fun t => decide (t.dir = Dir.short)

/-- Modelled from the spec: order execution by the Backtest Engine (spec
§4.4; the engine is the external backtesting library, not in src/).  A fill
happens at the current bar's close; closing realizes each trade's profit and
moves it to the log; an opening order carries the truncated size from the
Position Sizer and is rejected with no state change when that size is not
positive (InvalidSize, spec §7) or when the required margin notional /
leverage exceeds available cash (MarginExceeded, spec §7); commission is
charged on the notional of every fill.  E is the equity at the start of the
step, from which main.py lines 120-126 compute size and stops. -/
def execAction (cfg : Config) (price E : ℚ) (st : EngineState) : Action → EngineState
  | Action.close =>
      { st with
        cash := st.cash + (st.trades.map fun t =>
          tradePnl t price - cfg.commission * ((t.size : ℚ) * price)).sum
        trades := []
        closed := st.closed ++ st.trades }
  | Action.buy =>
      let n := pyInt (position_size E cfg.leverage price)
      if n ≤ 0 then st
      else if st.cash < (n : ℚ) * price / cfg.leverage then st
      else
        { st with
          trades := st.trades ++ [⟨Dir.long, n, price, stop_loss_long E cfg.risk price cfg.leverage⟩]
          cash := st.cash - cfg.commission * ((n : ℚ) * price) }
  | Action.sell =>
      let n := pyInt (position_size E cfg.leverage price)
      if n ≤ 0 then st
      else if st.cash < (n : ℚ) * price / cfg.leverage then st
      else
        { st with
          trades := st.trades ++ [⟨Dir.short, n, price, stop_loss_short E cfg.risk price cfg.leverage⟩]
          cash := st.cash - cfg.commission * ((n : ℚ) * price) }

/-- Modelled from the spec: one bar of the simulation loop (spec §4.4).  The
strategy decisions of RSIStrategy.next are applied in source order against
the state at the start of the bar, every fill is at the bar's close, and the
mark-to-market equity is appended to the curve whether or not any order
fired. -/
def stepEngine (cfg : Config) (b : Bar) (vp vn : Option ℚ) (st : EngineState) : EngineState :=
  let E := equity st b.close
  let acts := codeActions cfg (isLong st) (isShort st) vp vn
  let st' := acts.foldl (execAction cfg b.close E) st
  { st' with curve := st'.curve ++ [equity st' b.close] }

/-- Fresh account state at the start of a run: starting capital, no open
position, empty trade log, empty equity curve. -/
def initState (cfg : Config) : EngineState := ⟨cfg.capital, [], [], []⟩

/-- Modelled from the spec: the bar-by-bar loop of the Backtest Engine (spec
§4.4).  Each step i reads the previous and current indicator values
(self.rsi[-2], self.rsi[-1]); steps run over every bar after the first, and
a step whose indicator inputs are undefined holds by NaN comparison
semantics. -/
def runEngine (cfg : Config) (bars : List Bar) (inds : List (Option ℚ)) : EngineState :=
  (List.range' 1 (bars.length - 1)).foldl
    (fun st i =>
      stepEngine cfg (bars.getD i barDefault) (inds.getD (i - 1) none) (inds.getD i none) st)
    (initState cfg)

/-- Wilder exponential smoothing: each new average is
(previous * (period - 1) + x) / period. -/
def wilderAvgs (period : ℕ) : ℚ → List ℚ → List ℚ
  | _, [] => []
  | avg, x :: xs =>
      let a := (avg * ((period : ℚ) - 1) + x) / (period : ℚ)
      a :: wilderAvgs period a xs

/-- Modelled from the spec: the Indicator Pipeline (spec §4.1; the source
delegates the RSI computation to the external pandas_ta library at main.py
line 74, which is not in src/).  A smoothed oscillator of gains against
losses over the close-price sequence: the first period bars are undefined,
and with fewer than period + 1 closes no value is defined at all. -/
def rsiSeries (closes : List ℚ) (period : ℕ) : List (Option ℚ) :=
  if closes.length < period + 1 then List.replicate closes.length none
  else
    let diffs := (closes.zip closes.tail).map fun p => p.2 - p.1
    let gains := diffs.map fun d => max d 0
    let losses := diffs.map fun d => max (-d) 0
    let ag0 := (gains.take period).sum / (period : ℚ)
    let al0 := (losses.take period).sum / (period : ℚ)
    let ags := ag0 :: wilderAvgs period ag0 (gains.drop period)
    let als := al0 :: wilderAvgs period al0 (losses.drop period)
    let vals := (ags.zip als).map fun p =>
      if p.2 = 0 then (100 : ℚ) else 100 - 100 / (1 + p.1 / p.2)
    List.replicate period none ++ vals.map some

/-- A whole run as set_parameters plus run_backtest perform it (main.py
74, 88-89): compute the indicator series from the closes, then drive the
engine over the bars.  No validation of the bar count happens anywhere on
this path. -/
def runBacktest (cfg : Config) (bars : List Bar) : EngineState :=
  runEngine cfg bars (rsiSeries (bars.map Bar.close) cfg.period)

/-- Signal state as the spec's state machine sees it (spec §4.2). -/
inductive Pos
  | flat
  | long
  | short
deriving DecidableEq

/-- is_long of a signal state. -/
def Pos.isL : Pos → Bool
  | Pos.long => true
  | _ => false

/-- is_short of a signal state. -/
def Pos.isS : Pos → Bool
  | Pos.short => true
  | _ => false

/-- Net signal state after a list of orders: position.close() leaves Flat, a
buy leaves Long, a sell leaves Short (each order supersedes the previous
one's effect on the open position). -/
def posAfter (s : Pos) (acts : List Action) : Pos :=
  acts.foldl
    (fun _ a =>
      match a with
      | Action.close => Pos.flat
      | Action.buy => Pos.long
      | Action.sell => Pos.short)
    s

/-- Follows the claim's words (spec §4.2): the five ordered transition
rules, checked in order, each applicable rule firing in turn — rule 3
closing an existing Short and rule 4 an existing Long in the same step, as
the rules themselves state; the result is the state when no further rule
applies (rule 5: hold). -/
def specStep (cfg : Config) (s : Pos) (vp vn : ℚ) : Pos :=
  let up := vp < cfg.lower_bound ∧ cfg.lower_bound < vn
  let down := cfg.upper_bound < vp ∧ vn < cfg.upper_bound
  let s1 := if s = Pos.long ∧ down then Pos.flat else s
  let s2 := if s1 = Pos.short ∧ up then Pos.flat else s1
  let s3 := if up ∧ s2 ≠ Pos.long then Pos.long else s2
  let s4 := if down ∧ s3 ≠ Pos.short then Pos.short else s3
  s4

/-- Loss realized on a long position if the recorded stop were filled at the
stop price: executed size times the distance entry - stop. -/
def stopFillLossLong (E R P L : ℚ) : ℚ :=
  (pyInt (position_size E L P) : ℚ) * (P - stop_loss_long E R P L)

/-- Loss realized on a short position if the recorded stop were filled at
the stop price: executed size times the distance stop - entry. -/
def stopFillLossShort (E R P L : ℚ) : ℚ :=
  (pyInt (position_size E L P) : ℚ) * (stop_loss_short E R P L - P)

/-- States of the engine reachable by some run: the fresh account state, and
anything produced from a reachable state by one simulation step on any bar
and any pair of indicator inputs. -/
inductive Reachable (cfg : Config) : EngineState → Prop
  | init : Reachable cfg (initState cfg)
  | step (st : EngineState) (b : Bar) (vp vn : Option ℚ) :
      Reachable cfg st → Reachable cfg (stepEngine cfg b vp vn st)

/-- Concrete configuration with the source defaults: bounds 30/70, risk 1 %,
leverage 1, commission 0.002, period 14, capital 5000. -/
def cfgEx : Config := ⟨30, 70, 1, 1, 2 / 1000, 14, 5000⟩

/-- Fifteen concrete bars (one fewer than period + 2 for period 14). -/
def barsEx : List Bar := (List.range 15).map fun (i : ℕ) => ⟨(i : ℚ), i, i, i, 0⟩

/- Helper lemmas. -/

theorem cross_not_both (cfg : Config) (vp vn : Option ℚ) :
    crossUp cfg vp vn = true → crossDown cfg vp vn = true → False := by
  intro hu hd
  rcases vp with _ | a <;> rcases vn with _ | b <;>
    simp [crossUp, crossDown, oLT, oGT] at hu hd
  linarith [hu.1, hu.2, hd.1, hd.2]

theorem codeActions_no_cross (cfg : Config) (iL iS : Bool) (vp vn : Option ℚ)
    (hu : crossUp cfg vp vn = false) (hd : crossDown cfg vp vn = false) :
    codeActions cfg iL iS vp vn = [] := by
  simp [codeActions, hu, hd]

theorem crossUp_none (cfg : Config) (vp vn : Option ℚ) (h : vp = none ∨ vn = none) :
    crossUp cfg vp vn = false := by
  rcases h with h | h <;> subst h <;> simp [crossUp, oLT, oGT]

theorem crossDown_none (cfg : Config) (vp vn : Option ℚ) (h : vp = none ∨ vn = none) :
    crossDown cfg vp vn = false := by
  rcases h with h | h <;> subst h <;> simp [crossDown, oLT, oGT]

theorem step_of_no_acts (cfg : Config) (b : Bar) (vp vn : Option ℚ) (st : EngineState)
    (h : codeActions cfg (isLong st) (isShort st) vp vn = []) :
    stepEngine cfg b vp vn st = { st with curve := st.curve ++ [equity st b.close] } := by
  simp [stepEngine, h]

theorem step_hold_of_none (cfg : Config) (b : Bar) (vp vn : Option ℚ) (st : EngineState)
    (h : vp = none ∨ vn = none) :
    stepEngine cfg b vp vn st = { st with curve := st.curve ++ [equity st b.close] } :=
  step_of_no_acts cfg b vp vn st
    (codeActions_no_cross cfg _ _ vp vn (crossUp_none cfg vp vn h) (crossDown_none cfg vp vn h))

theorem pyInt_eq_floor (q : ℚ) (h : 0 ≤ q) : pyInt q = ⌊q⌋ := by
  simp [pyInt, h]

theorem pyInt_nonpos (q : ℚ) (h : ⌊q⌋ ≤ 0) : pyInt q ≤ 0 := by
  unfold pyInt
  split
  · exact h
  · exact Int.ceil_le.mpr (by push_cast; linarith [not_le.mp (by assumption)])

theorem pyInt_pos_floor (q : ℚ) (h : 1 ≤ pyInt q) : pyInt q = ⌊q⌋ ∧ 0 ≤ q := by
  by_cases hq : 0 ≤ q
  · exact ⟨pyInt_eq_floor q hq, hq⟩
  · exfalso
    have hle : pyInt q ≤ 0 := by
      unfold pyInt
      rw [if_neg hq]
      exact Int.ceil_le.mpr (by push_cast; linarith [not_le.mp hq])
    omega

theorem getD_replicate_none (n j : ℕ) :
    (List.replicate n (none : Option ℚ)).getD j none = none := by
  simp only [List.getD, List.get?_eq_getElem?, List.getElem?_replicate]
  split <;> rfl

theorem rsi_warmup (closes : List ℚ) (p j : ℕ) (h : j < p) :
    (rsiSeries closes p).getD j none = none := by
  unfold rsiSeries
  split
  · exact getD_replicate_none _ _
  · have hlen : j < (List.replicate p (none : Option ℚ)).length := by simpa using h
    simp [List.getD, List.getElem?_append, hlen, List.getElem?_replicate, h]

theorem equity_mk (c : ℚ) (tr cl : List Trade) (cv cv' : List ℚ) (p : ℚ) :
    equity ⟨c, tr, cl, cv⟩ p = equity ⟨c, tr, cl, cv'⟩ p := rfl

theorem foldl_hold (cfg : Config) (bars : List Bar) (inds : List (Option ℚ)) :
    ∀ (l : List ℕ) (st : EngineState),
      (∀ i ∈ l, inds.getD (i - 1) none = none ∨ inds.getD i none = none) →
      l.foldl
          (fun st i =>
            stepEngine cfg (bars.getD i barDefault) (inds.getD (i - 1) none)
              (inds.getD i none) st)
          st
        = { st with
            curve := st.curve ++ l.map fun i => equity st (bars.getD i barDefault).close } := by
  intro l
  induction l with
  | nil => intro st _; simp
  | cons i is ih =>
      intro st h
      have hstep := step_hold_of_none cfg (bars.getD i barDefault) (inds.getD (i - 1) none)
        (inds.getD i none) st (h i (by simp))
      have hrest : ∀ j ∈ is, inds.getD (j - 1) none = none ∨ inds.getD j none = none :=
        fun j hj => h j (by simp [hj])
      rcases st with ⟨c, tr, cl, cv⟩
      simp only [List.foldl_cons, hstep]
      rw [ih _ hrest]
      simp [List.append_assoc]
      exact fun a _ => rfl

theorem equity_init (cfg : Config) (p : ℚ) : equity (initState cfg) p = cfg.capital := by
  simp [equity, initState]

theorem run_all_hold (cfg : Config) (bars : List Bar) (h : bars.length < cfg.period + 2) :
    runBacktest cfg bars
      = ⟨cfg.capital, [], [], List.replicate (bars.length - 1) cfg.capital⟩ := by
  unfold runBacktest runEngine
  rw [foldl_hold cfg bars (rsiSeries (bars.map Bar.close) cfg.period)
    (List.range' 1 (bars.length - 1)) (initState cfg)
    (fun i hi => Or.inl (rsi_warmup _ _ _
      (by have := List.mem_range'_1.mp hi; omega)))]
  have hmap : (List.range' 1 (bars.length - 1)).map
      (fun i => equity (initState cfg) (bars.getD i barDefault).close)
      = List.replicate (bars.length - 1) cfg.capital := by
    rw [List.eq_replicate_iff]
    refine ⟨by simp, fun b hb => ?_⟩
    rcases List.mem_map.mp hb with ⟨i, -, rfl⟩
    exact equity_init cfg _
  simp only [initState, List.nil_append, EngineState.mk.injEq]
  refine ⟨trivial, trivial, trivial, ?_⟩
  simpa using hmap

theorem execAction_curve (cfg : Config) (price E : ℚ) (st : EngineState) (a : Action) :
    (execAction cfg price E st a).curve = st.curve := by
  cases a
  · rfl
  · simp only [execAction]
    split_ifs <;> rfl
  · simp only [execAction]
    split_ifs <;> rfl

theorem foldl_exec_curve (cfg : Config) (price E : ℚ) :
    ∀ (acts : List Action) (st : EngineState),
      (acts.foldl (execAction cfg price E) st).curve = st.curve := by
  intro acts
  induction acts with
  | nil => intro st; rfl
  | cons a as ih => intro st; rw [List.foldl_cons, ih, execAction_curve]

theorem step_curve_len (cfg : Config) (b : Bar) (vp vn : Option ℚ) (st : EngineState) :
    (stepEngine cfg b vp vn st).curve.length = st.curve.length + 1 := by
  simp [stepEngine, foldl_exec_curve]

theorem run_curve_len (cfg : Config) (bars : List Bar) (inds : List (Option ℚ)) :
    (runEngine cfg bars inds).curve.length = bars.length - 1 := by
  unfold runEngine
  have hgen : ∀ (l : List ℕ) (st : EngineState),
      (l.foldl
          (fun st i =>
            stepEngine cfg (bars.getD i barDefault) (inds.getD (i - 1) none)
              (inds.getD i none) st)
          st).curve.length
        = st.curve.length + l.length := by
    intro l
    induction l with
    | nil => intro st; simp
    | cons i is ih =>
        intro st
        rw [List.foldl_cons, ih, step_curve_len]
        simp [List.length_cons]
        omega
  rw [hgen]
  simp [initState]

theorem crossUp_some_eq (cfg : Config) (vp vn : ℚ) :
    crossUp cfg (some vp) (some vn)
      = decide (vp < cfg.lower_bound ∧ cfg.lower_bound < vn) := by
  simp [crossUp, oLT, oGT]

theorem crossDown_some_eq (cfg : Config) (vp vn : ℚ) :
    crossDown cfg (some vp) (some vn)
      = decide (cfg.upper_bound < vp ∧ vn < cfg.upper_bound) := by
  simp [crossDown, oLT, oGT]

theorem dist_long (E R P L : ℚ) :
    P - stop_loss_long E R P L = E * (R / 100) / position_size E L P := by
  unfold stop_loss_long
  ring

theorem dist_short (E R P L : ℚ) :
    stop_loss_short E R P L - P = E * (R / 100) / position_size E L P := by
  unfold stop_loss_short
  ring

theorem stopFill_le (E R P L : ℚ) (hE : 0 < E) (hP : 0 < P) (hL : 0 < L) (hR : 0 ≤ R) :
    stopFillLossLong E R P L ≤ E * (R / 100) := by
  have hs : 0 < position_size E L P := by
    unfold position_size
    positivity
  have hd : 0 ≤ E * (R / 100) / position_size E L P := by positivity
  have hfl : (pyInt (position_size E L P) : ℚ) ≤ position_size E L P := by
    rw [pyInt_eq_floor _ hs.le]
    exact Int.floor_le _
  calc stopFillLossLong E R P L
      = (pyInt (position_size E L P) : ℚ) * (E * (R / 100) / position_size E L P) := by
        rw [stopFillLossLong, dist_long]
    _ ≤ position_size E L P * (E * (R / 100) / position_size E L P) :=
        mul_le_mul_of_nonneg_right hfl hd
    _ = E * (R / 100) := by
        field_simp
        ring

theorem stopFill_short_eq (E R P L : ℚ) :
    stopFillLossShort E R P L = stopFillLossLong E R P L := by
  unfold stopFillLossShort stopFillLossLong stop_loss_short stop_loss_long
  ring

theorem pyInt_sizer_ex : pyInt (position_size 5000 1 150) = 33 := by
  have h1 : position_size 5000 1 150 = 100 / 3 := by norm_num [position_size]
  rw [h1, pyInt_eq_floor _ (by norm_num), Int.floor_eq_iff]
  norm_num

/- Claim theorems. -/

/-- C3 (amended): the stop distance the source computes divides the risk
amount by the un-floored position size E*L/P, not by the truncated executed
size, so it equals P*R/(100*L); stop_price_long is P minus that distance and
stop_price_short is P plus it.  The spec's concrete example is unchanged:
for equity 5000, leverage 1, risk 1 %, price 100 the truncated size is 50,
the stop distance is 1 and stop_price_long is 99. -/
theorem C3_stop_distance (E R P L : ℚ) (hE : 0 < E) (hP : 0 < P) (hL : 0 < L) :
    stop_loss_long E R P L = P - P * R / (100 * L) ∧
      stop_loss_short E R P L = P + P * R / (100 * L) ∧
      pyInt (position_size 5000 1 100) = 50 ∧
      5000 * ((1 : ℚ) / 100) / position_size 5000 1 100 = 1 ∧
      stop_loss_long 5000 1 100 1 = 99 := by
  have hE' : E ≠ 0 := hE.ne'
  have hP' : P ≠ 0 := hP.ne'
  have hL' : L ≠ 0 := hL.ne'
  refine ⟨?_, ?_, ?_, ?_, ?_⟩
  · unfold stop_loss_long position_size
    field_simp
    ring
  · unfold stop_loss_short position_size
    field_simp
    ring
  · have h1 : position_size 5000 1 100 = 50 := by norm_num [position_size]
    rw [h1, pyInt_eq_floor _ (by norm_num), Int.floor_eq_iff]
    norm_num
  · norm_num [position_size]
  · norm_num [stop_loss_long, position_size]

/-- C3 counterexample: at equity 5000, risk 1 %, price 150, leverage 1 the
code's stop_loss_long (148.5, from the un-floored size 100/3) differs from
the claimed P minus (E*R/100) divided by the truncated size 33. -/
theorem C3_counterexample :
    stop_loss_long 5000 1 150 1
      ≠ 150 - 5000 * ((1 : ℚ) / 100) / (pyInt (position_size 5000 1 150) : ℚ) := by
  rw [pyInt_sizer_ex]
  norm_num [stop_loss_long, position_size]

/-- C3 witness: the amended statement instantiated at the spec's example. -/
theorem C3_witness :
    stop_loss_long 5000 1 100 1 = 100 - 100 * 1 / (100 * 1) ∧
      stop_loss_short 5000 1 100 1 = 100 + 100 * 1 / (100 * 1) ∧
      pyInt (position_size 5000 1 100) = 50 ∧
      5000 * ((1 : ℚ) / 100) / position_size 5000 1 100 = 1 ∧
      stop_loss_long 5000 1 100 1 = 99 :=
  C3_stop_distance 5000 1 100 1 (by norm_num) (by norm_num) (by norm_num)

/-- C5 (amended): no InsufficientData check exists anywhere on the source
path; with fewer than period + 2 bars the run is still executed, but no step
ever sees two defined indicator values, so every step holds: the run ends
with no open position, an empty trade log, the starting capital intact, and
one flat equity snapshot per simulated bar. -/
theorem C5_insufficient_data_no_abort (cfg : Config) (bars : List Bar)
    (h : bars.length < cfg.period + 2) :
    (runBacktest cfg bars).trades = [] ∧
      (runBacktest cfg bars).closed = [] ∧
      (runBacktest cfg bars).cash = cfg.capital ∧
      (runBacktest cfg bars).curve = List.replicate (bars.length - 1) cfg.capital := by
  rw [run_all_hold cfg bars h]
  exact ⟨rfl, rfl, rfl, rfl⟩

/-- C5 counterexample: period 14 with only 15 bars (fewer than period + 2):
the run does not abort; it executes 14 simulation steps (one equity snapshot
each) and finishes normally with an empty trade log. -/
theorem C5_counterexample :
    barsEx.length < cfgEx.period + 2 ∧
      (runBacktest cfgEx barsEx).curve.length = 14 ∧
      (runBacktest cfgEx barsEx).closed = [] := by
  have hlen : barsEx.length = 15 := by
    unfold barsEx
    rw [List.length_map, List.length_range]
  have h : barsEx.length < cfgEx.period + 2 := by
    rw [hlen]
    decide
  have hrun := run_all_hold cfgEx barsEx h
  refine ⟨h, ?_, ?_⟩
  · rw [hrun]
    simp [hlen]
  · rw [hrun]

/-- C5 witness: the amended statement at the 15-bar, period-14 input. -/
theorem C5_witness :
    (runBacktest cfgEx barsEx).trades = [] ∧
      (runBacktest cfgEx barsEx).closed = [] ∧
      (runBacktest cfgEx barsEx).cash = cfgEx.capital ∧
      (runBacktest cfgEx barsEx).curve
        = List.replicate (barsEx.length - 1) cfgEx.capital :=
  C5_insufficient_data_no_abort cfgEx barsEx
    (by rw [show barsEx.length = 15 by unfold barsEx; rw [List.length_map, List.length_range]]
        decide)

/-- C6: the first period entries of the indicator series are undefined, and
a step either of whose indicator inputs is undefined changes no position, no
trade log and no cash — it is a hold, produced by NaN comparison semantics
rather than by an error surfaced to the caller (the step function is total). -/
theorem C6_warmup_hold (closes : List ℚ) (p j : ℕ) (cfg : Config) (b : Bar)
    (vp vn : Option ℚ) (st : EngineState) :
    (j < p → (rsiSeries closes p).getD j none = none) ∧
      (vp = none ∨ vn = none →
        (stepEngine cfg b vp vn st).trades = st.trades ∧
          (stepEngine cfg b vp vn st).closed = st.closed ∧
          (stepEngine cfg b vp vn st).cash = st.cash) := by
  constructor
  · exact fun h => rsi_warmup closes p j h
  · intro h
    rw [step_hold_of_none cfg b vp vn st h]
    exact ⟨rfl, rfl, rfl⟩

/-- C6 witness: warm-up index 0 of a period-14 series is undefined, and a
step with an undefined previous value holds. -/
theorem C6_witness :
    (rsiSeries [] 14).getD 0 none = none ∧
      (stepEngine cfgEx barDefault none (some 50) (initState cfgEx)).trades
          = (initState cfgEx).trades ∧
        (stepEngine cfgEx barDefault none (some 50) (initState cfgEx)).closed
          = (initState cfgEx).closed ∧
        (stepEngine cfgEx barDefault none (some 50) (initState cfgEx)).cash
          = (initState cfgEx).cash :=
  ⟨(C6_warmup_hold [] 14 0 cfgEx barDefault none (some 50) (initState cfgEx)).1
      (by decide),
    (C6_warmup_hold [] 14 0 cfgEx barDefault none (some 50) (initState cfgEx)).2
      (Or.inl rfl)⟩

/-- C8 (amended): if the recorded stop were filled at the stop price, the
loss on the executed (truncated) size is at most R percent of the equity at
entry, for longs and shorts alike; it equals exactly R percent — and is then
independent of leverage — precisely when the un-floored position size E*L/P
is already an integer, and otherwise falls strictly short of it. -/
theorem C8_stop_calibration (E R P L : ℚ) (hE : 0 < E) (hP : 0 < P) (hL : 0 < L)
    (hR : 0 ≤ R) :
    stopFillLossLong E R P L ≤ E * (R / 100) ∧
      stopFillLossShort E R P L = stopFillLossLong E R P L ∧
      ((pyInt (position_size E L P) : ℚ) = position_size E L P →
        stopFillLossLong E R P L = E * (R / 100)) := by
  refine ⟨stopFill_le E R P L hE hP hL hR, stopFill_short_eq E R P L, fun hint => ?_⟩
  have hs : position_size E L P ≠ 0 := by
    unfold position_size
    positivity
  rw [stopFillLossLong, dist_long, hint]
  field_simp
  ring

/-- C8 counterexample: at equity 5000, risk 1 %, price 150, leverage 1 the
stop-fill loss is 33 * 1.5 = 49.5, not the claimed exact 1 % of equity (50). -/
theorem C8_counterexample :
    stopFillLossLong 5000 1 150 1 ≠ 5000 * ((1 : ℚ) / 100) := by
  rw [stopFillLossLong, pyInt_sizer_ex]
  norm_num [stop_loss_long, position_size]

/-- C8 witness: at price 1 the position size 5000 is integral, so the
stop-fill loss is exactly 1 % of equity. -/
theorem C8_witness :
    stopFillLossLong 5000 1 1 1 ≤ 5000 * ((1 : ℚ) / 100) ∧
      stopFillLossShort 5000 1 1 1 = stopFillLossLong 5000 1 1 1 ∧
      stopFillLossLong 5000 1 1 1 = 5000 * ((1 : ℚ) / 100) := by
  have h := C8_stop_calibration 5000 1 1 1 (by norm_num) (by norm_num) (by norm_num)
    (by norm_num)
  refine ⟨h.1, h.2.1, h.2.2 ?_⟩
  rw [show position_size 5000 1 1 = 5000 by norm_num [position_size],
    pyInt_eq_floor _ (by norm_num)]
  norm_num

/-- C9: a run is a pure function of bar series, indicator series and
configuration — runs on equal inputs produce equal equity curves, equal
trade logs and equal final states (the engine state carries no other input
and no state survives across runs: each run starts from initState). -/
theorem C9_determinism (cfg cfg' : Config) (bars bars' : List Bar)
    (inds inds' : List (Option ℚ)) (hc : cfg = cfg') (hb : bars = bars')
    (hi : inds = inds') :
    (runEngine cfg bars inds).curve = (runEngine cfg' bars' inds').curve ∧
      (runEngine cfg bars inds).closed = (runEngine cfg' bars' inds').closed ∧
      runEngine cfg bars inds = runEngine cfg' bars' inds' := by
  subst hc
  subst hb
  subst hi
  exact ⟨rfl, rfl, rfl⟩

/-- C9 witness: two runs of the engine on the identical concrete inputs. -/
theorem C9_witness :
    (runEngine cfgEx barsEx []).curve = (runEngine cfgEx barsEx []).curve ∧
      (runEngine cfgEx barsEx []).closed = (runEngine cfgEx barsEx []).closed ∧
      runEngine cfgEx barsEx [] = runEngine cfgEx barsEx [] :=
  C9_determinism cfgEx cfgEx barsEx barsEx [] [] rfl rfl rfl

/-- C10: because the stop distance is computed from the un-floored size
E*L/P while the order executes with the truncated integer size, the
stop-fill loss is at most R percent of the equity at entry, and strictly
less whenever truncation discards a fractional unit. -/
theorem C10_loss_bound (E R P L : ℚ) (hE : 0 < E) (hP : 0 < P) (hL : 0 < L)
    (hR : 0 < R) :
    stopFillLossLong E R P L ≤ E * (R / 100) ∧
      stopFillLossShort E R P L ≤ E * (R / 100) ∧
      ((pyInt (position_size E L P) : ℚ) < position_size E L P →
        stopFillLossLong E R P L < E * (R / 100)) := by
  refine ⟨stopFill_le E R P L hE hP hL hR.le, ?_, fun hlt => ?_⟩
  · rw [stopFill_short_eq]
    exact stopFill_le E R P L hE hP hL hR.le
  · have hs : 0 < position_size E L P := by
      unfold position_size
      positivity
    have hd : 0 < E * (R / 100) / position_size E L P := by positivity
    calc stopFillLossLong E R P L
        = (pyInt (position_size E L P) : ℚ)
            * (E * (R / 100) / position_size E L P) := by
          rw [stopFillLossLong, dist_long]
      _ < position_size E L P * (E * (R / 100) / position_size E L P) :=
          mul_lt_mul_of_pos_right hlt hd
      _ = E * (R / 100) := by
          field_simp
          ring

/-- C10 witness: equity 3, price 2, leverage 1 gives un-floored size 3/2,
truncated size 1, and a stop-fill loss strictly below 1 % of equity. -/
theorem C10_witness :
    stopFillLossLong 3 1 2 1 ≤ 3 * ((1 : ℚ) / 100) ∧
      stopFillLossShort 3 1 2 1 ≤ 3 * ((1 : ℚ) / 100) ∧
      stopFillLossLong 3 1 2 1 < 3 * ((1 : ℚ) / 100) := by
  have h := C10_loss_bound 3 1 2 1 (by norm_num) (by norm_num) (by norm_num)
    (by norm_num)
  refine ⟨h.1, h.2.1, h.2.2 ?_⟩
  rw [show position_size 3 1 2 = 3 / 2 by norm_num [position_size],
    pyInt_eq_floor _ (by norm_num)]
  rw [show ⌊(3 / 2 : ℚ)⌋ = 1 by rw [Int.floor_eq_iff]; norm_num]
  norm_num

/-- C2: the executed order size is the truncation of equity * leverage /
price; on every executed (hence positive-size) order it equals the claimed
floor and is a positive integer at least 1; when the computed size is not
positive the order is skipped with no state change (InvalidSize treated as
hold for the step) and the run continues — the engine still records exactly
one equity snapshot per simulated bar. -/
theorem C2_position_sizer (cfg : Config) (E price : ℚ) (st : EngineState) :
    (1 ≤ pyInt (position_size E cfg.leverage price) →
      pyInt (position_size E cfg.leverage price) = ⌊E * cfg.leverage / price⌋) ∧
      (⌊E * cfg.leverage / price⌋ ≤ 0 →
        execAction cfg price E st Action.buy = st ∧
          execAction cfg price E st Action.sell = st) ∧
      (1 ≤ pyInt (position_size E cfg.leverage price) →
        ¬st.cash < (pyInt (position_size E cfg.leverage price) : ℚ) * price / cfg.leverage →
        (execAction cfg price E st Action.buy).trades
          = st.trades ++ [⟨Dir.long, pyInt (position_size E cfg.leverage price), price,
              stop_loss_long E cfg.risk price cfg.leverage⟩]) ∧
      (∀ (bars : List Bar) (inds : List (Option ℚ)),
        (runEngine cfg bars inds).curve.length = bars.length - 1) := by
  refine ⟨fun h1 => (pyInt_pos_floor _ h1).1, fun h0 => ?_, fun h1 h2 => ?_,
    fun bars inds => run_curve_len cfg bars inds⟩
  · have hn : pyInt (position_size E cfg.leverage price) ≤ 0 := pyInt_nonpos _ h0
    constructor <;> simp only [execAction] <;> rw [if_pos hn]
  · simp only [execAction]
    rw [if_neg (by omega), if_neg h2]

/-- C2 witness: equity 100, price 1, leverage 1 on a fresh account: the
truncated size 100 equals the floor, the buy executes with exactly that
size, and an empty run still records its (empty) equity curve. -/
theorem C2_witness :
    pyInt (position_size 100 cfgEx.leverage 1) = ⌊(100 : ℚ) * cfgEx.leverage / 1⌋ ∧
      (execAction cfgEx 1 100 (initState cfgEx) Action.buy).trades
        = (initState cfgEx).trades
            ++ [⟨Dir.long, pyInt (position_size 100 cfgEx.leverage 1), 1,
                stop_loss_long 100 cfgEx.risk 1 cfgEx.leverage⟩] ∧
      (runEngine cfgEx [] []).curve.length = ([] : List Bar).length - 1 := by
  have h := C2_position_sizer cfgEx 100 1 (initState cfgEx)
  have h100 : pyInt (position_size 100 cfgEx.leverage 1) = 100 := by
    rw [show position_size 100 cfgEx.leverage 1 = ((100 : ℤ) : ℚ) by
        norm_num [position_size, cfgEx],
      pyInt_eq_floor _ (by norm_num), Int.floor_intCast]
  have h1 : 1 ≤ pyInt (position_size 100 cfgEx.leverage 1) := by
    rw [h100]
    norm_num
  have h2 : ¬(initState cfgEx).cash
      < (pyInt (position_size 100 cfgEx.leverage 1) : ℚ) * 1 / cfgEx.leverage := by
    rw [h100]
    norm_num [initState, cfgEx]
  exact ⟨h.1 h1, h.2.2.1 h1 h2, h.2.2.2 [] []⟩

/-- C4: the engine's fill model reads only the bar's close — two bars that
agree at the close produce identical steps whatever their highs and lows,
so the recorded stop price is carried but never tested against intrabar
extremes — and a step with no bound crossing opens and closes nothing, so
position exits occur only through the close-price crossing rules. -/
theorem C4_stop_not_enforced (cfg : Config) (st : EngineState) (b b' : Bar)
    (vp vn : Option ℚ) :
    (b.close = b'.close → stepEngine cfg b vp vn st = stepEngine cfg b' vp vn st) ∧
      (crossUp cfg vp vn = false → crossDown cfg vp vn = false →
        (stepEngine cfg b vp vn st).trades = st.trades ∧
          (stepEngine cfg b vp vn st).closed = st.closed) := by
  constructor
  · intro h
    rcases b with ⟨o, hi, lo, c, v⟩
    rcases b' with ⟨o', hi', lo', c', v'⟩
    have hc : c = c' := h
    subst hc
    rfl
  · intro h1 h2
    rw [step_of_no_acts cfg b vp vn st (codeActions_no_cross cfg _ _ vp vn h1 h2)]
    exact ⟨rfl, rfl⟩

/-- C4 witness: a no-crossing step on a fresh account is insensitive to the
bar beyond its close and leaves the position untouched. -/
theorem C4_witness :
    stepEngine cfgEx barDefault (some 50) (some 50) (initState cfgEx)
        = stepEngine cfgEx barDefault (some 50) (some 50) (initState cfgEx) ∧
      (stepEngine cfgEx barDefault (some 50) (some 50) (initState cfgEx)).trades
          = (initState cfgEx).trades ∧
        (stepEngine cfgEx barDefault (some 50) (some 50) (initState cfgEx)).closed
          = (initState cfgEx).closed := by
  have h := C4_stop_not_enforced cfgEx (initState cfgEx) barDefault barDefault
    (some 50) (some 50)
  exact ⟨h.1 rfl, h.2 (by decide) (by decide)⟩

/-- C1: for defined indicator inputs one step of RSIStrategy.next realizes
exactly the claim's five ordered transition rules, read cumulatively in
order — so rule 3 closes an existing Short and rule 4 an existing Long in
the same step before opening the opposite side — and when neither bound is
crossed between the two samples the step issues no order at all: a value
merely beyond a bound without crossing produces no open or close action. -/
theorem C1_signal_machine (cfg : Config) (s : Pos) (vp vn : ℚ) :
    posAfter s (codeActions cfg s.isL s.isS (some vp) (some vn)) = specStep cfg s vp vn ∧
      (¬(vp < cfg.lower_bound ∧ cfg.lower_bound < vn) →
        ¬(cfg.upper_bound < vp ∧ vn < cfg.upper_bound) →
        codeActions cfg s.isL s.isS (some vp) (some vn) = []) := by
  have hcu := crossUp_some_eq cfg vp vn
  have hcd := crossDown_some_eq cfg vp vn
  by_cases hu : vp < cfg.lower_bound ∧ cfg.lower_bound < vn <;>
    by_cases hd : cfg.upper_bound < vp ∧ vn < cfg.upper_bound
  · exfalso
    obtain ⟨hu1, hu2⟩ := hu
    obtain ⟨hd1, hd2⟩ := hd
    linarith
  · rw [decide_eq_true hu] at hcu
    rw [decide_eq_false hd] at hcd
    refine ⟨?_, fun hnu _ => absurd hu hnu⟩
    cases s <;> simp [codeActions, hcu, hcd, posAfter, specStep, Pos.isL, Pos.isS, hu, hd]
  · rw [decide_eq_false hu] at hcu
    rw [decide_eq_true hd] at hcd
    refine ⟨?_, fun _ hnd => absurd hd hnd⟩
    cases s <;> simp [codeActions, hcu, hcd, posAfter, specStep, Pos.isL, Pos.isS, hu, hd]
  · rw [decide_eq_false hu] at hcu
    rw [decide_eq_false hd] at hcd
    refine ⟨?_, fun _ _ => codeActions_no_cross cfg _ _ _ _ hcu hcd⟩
    rw [codeActions_no_cross cfg _ _ _ _ hcu hcd]
    cases s <;> simp [posAfter, specStep, hu, hd]

/-- C1 witness: RSI steady at 50 (no crossing) from Flat: the code's step
agrees with the five-rule machine and issues no order. -/
theorem C1_witness :
    posAfter Pos.flat (codeActions cfgEx Pos.flat.isL Pos.flat.isS (some 50) (some 50))
        = specStep cfgEx Pos.flat 50 50 ∧
      codeActions cfgEx Pos.flat.isL Pos.flat.isS (some 50) (some 50) = [] := by
  have h := C1_signal_machine cfgEx Pos.flat 50 50
  exact ⟨h.1, h.2 (by decide) (by decide)⟩

theorem step_trades_le (cfg : Config) (b : Bar) (vp vn : Option ℚ) (st : EngineState)
    (h : st.trades.length ≤ 1) : (stepEngine cfg b vp vn st).trades.length ≤ 1 := by
  rcases st with ⟨c, tr, cl, cv⟩
  rcases tr with _ | ⟨t, tr2⟩
  · cases hcu : crossUp cfg vp vn <;> cases hcd : crossDown cfg vp vn <;>
      first
        | exact (cross_not_both cfg vp vn hcu hcd).elim
        | (simp [stepEngine, codeActions, isLong, isShort, hcu, hcd, execAction]
           try (split_ifs <;> simp))
  · rcases tr2 with _ | ⟨t2, tr3⟩
    · rcases t with ⟨d, sz, en, sp⟩
      cases d <;> cases hcu : crossUp cfg vp vn <;> cases hcd : crossDown cfg vp vn <;>
        first
          | exact (cross_not_both cfg vp vn hcu hcd).elim
          | (simp [stepEngine, codeActions, isLong, isShort, hcu, hcd, execAction]
             try (split_ifs <;> simp))
    · exfalso
      simp [List.length_cons] at h

/-- C7: every reachable engine state holds at most one open trade, and its
long and short flags are never set together: the system never carries long
and short exposure simultaneously. -/
theorem C7_single_position (cfg : Config) (st : EngineState) (h : Reachable cfg st) :
    st.trades.length ≤ 1 ∧ ¬(isLong st = true ∧ isShort st = true) := by
  have hlen : st.trades.length ≤ 1 := by
    induction h with
    | init => simp [initState]
    | step st' b vp vn _ ih => exact step_trades_le cfg b vp vn st' ih
  refine ⟨hlen, ?_⟩
  rintro ⟨hL, hS⟩
  rcases hst : st.trades with _ | ⟨t, rest⟩
  · simp [isLong, hst] at hL
  · rcases rest with _ | ⟨t2, rest2⟩
    · simp [isLong, isShort, hst] at hL hS
      rw [hL] at hS
      exact Dir.noConfusion hS
    · rw [hst] at hlen
      simp [List.length_cons] at hlen

/-- C7 witness: the fresh account state is reachable and satisfies the
invariant. -/
theorem C7_witness :
    (initState cfgEx).trades.length ≤ 1 ∧
      ¬(isLong (initState cfgEx) = true ∧ isShort (initState cfgEx) = true) :=
  C7_single_position cfgEx (initState cfgEx) Reachable.init

end BacktestRSI
